import Mathlib

/-!
Verification development for the `browser-actor-supervisor` crawler.

The Python sources under `src/crawler/` are shallowly embedded below:
pure functions become Lean functions, stateful objects become explicit
state records with pure transition functions, Python floats (wall-clock
times and resource percentages) become exact integers, and the
interaction with the external Playwright engine is abstracted into
explicit outcome parameters.  Each embedded definition carries a doc
comment naming the Python symbol it translates.
-/

namespace Crawler

/-! ### String helpers (Python `in` on strings and `str.lower`) -/

/-- Python substring containment `needle in hay`, on character lists. -/
def containsSub (needle : List Char) : List Char → Bool
  | [] => needle.isEmpty
  | c :: t => needle.isPrefixOf (c :: t) || containsSub needle t

/-- Python `str.lower()` (the crawler only compares ASCII error text). -/
def lowerStr (s : String) : String := ⟨s.data.map Char.toLower⟩

/-! ### Domain extraction

`scheduler.extract_domain` calls the standard-library
`urllib.parse.urlparse` and keeps its `netloc`, falling back to the raw
string when the netloc is empty.  `urlparse` is a dependency outside this
repository, so its netloc behaviour is modelled here: an optional
`scheme:` prefix is stripped, and the netloc is the text between a
leading `//` and the next `/`, `?` or `#` (empty when there is no `//`).
-/

/-- Characters allowed in a URL scheme after the leading letter. -/
def schemeChar (c : Char) : Bool :=
  c.isAlphanum || c = '+' || c = '-' || c = '.'

/-- Consume scheme characters up to a `:`; `none` when no scheme ends here. -/
def schemeRest : List Char → Option (List Char)
  | [] => none
  | ':' :: r => some r
  | c :: r => if schemeChar c then schemeRest r else none

/-- Strip a `scheme:` prefix when present, as `urlparse` does. -/
def stripScheme (url : List Char) : List Char :=
  match url with
  | [] => []
  | c :: r => if c.isAlpha then (schemeRest r).getD url else url

/-- A character that terminates the netloc component. -/
def netlocEnd (c : Char) : Bool := c = '/' || c = '?' || c = '#'

/-- The `netloc` of a URL under the model of `urllib.parse.urlparse`. -/
def netloc (url : List Char) : List Char :=
  match stripScheme url with
  | '/' :: '/' :: r => r.takeWhile (fun c => !netlocEnd c)
  | _ => []

/-- Embeds `scheduler.extract_domain`: the netloc, or the raw URL when
the netloc is empty. -/
def extract_domain (url : String) : String :=
  let n := netloc url.data
  if n.isEmpty then url else ⟨n⟩

/-! ### `types.py` -/

/-- Embeds `types.CrawlStatus`. -/
inductive CrawlStatus where
  | pending
  | in_progress
  | success
  | failed
  | timeout
deriving DecidableEq, Repr

/-- Embeds `types.CrawlResult`; byte counts are naturals, elapsed time a
integer. -/
structure CrawlResult where
  url : String
  status : CrawlStatus
  initial_html_bytes : Nat := 0
  rendered_html_bytes : Nat := 0
  error : Option String := none
  elapsed_sec : ℤ := 0
deriving DecidableEq, Repr

/-- Embeds `types.DomainState`. -/
structure DomainState where
  domain : String
  last_crawl_ts : ℤ := 0
  pending_urls : List String := []
deriving DecidableEq, Repr

/-- Embeds `types.ResourceStats`. -/
structure ResourceStats where
  cpu_pct : ℤ
  mem_pct : ℤ
  mem_avail_mb : ℤ
deriving DecidableEq, Repr

/-- Embeds `types.CrawlerConfig` with its default field values. -/
structure CrawlerConfig where
  domain_delay_sec : ℤ := 60
  page_timeout_sec : ℤ := 60
  cpu_threshold : ℤ := 80
  mem_threshold : ℤ := 80
  min_mem_avail_mb : ℤ := 512
deriving DecidableEq, Repr

/-! ### `monitor.py` -/

/-- Embeds the decision of `ResourceMonitor.can_launch_more` on a given
sample (`get_stats` draws the sample from `psutil`; the decision itself
is a pure predicate of the sample and the configuration). -/
def can_launch_more (cfg : CrawlerConfig) (stats : ResourceStats) : Bool :=
  decide (stats.cpu_pct < cfg.cpu_threshold) &&
  decide (stats.mem_pct < cfg.mem_threshold) &&
  decide (stats.mem_avail_mb > cfg.min_mem_avail_mb)

/-! ### `scheduler.py`

`DomainScheduler.domains` is a Python dict (unique keys, insertion
order); it is embedded as an association list updated at the first
matching key.  `_in_flight` is a Python set queried only for membership;
it is embedded as a list to which a domain is appended on dispatch and
from which `discard` filters every occurrence. -/

/-- Embeds `DomainScheduler.__init__`'s state. -/
structure DomainScheduler where
  cfg : CrawlerConfig
  domains : List (String × DomainState) := []
  in_flight : List String := []
deriving DecidableEq, Repr

/-- A scheduler with no domains, as built by `DomainScheduler.__init__`. -/
def initScheduler (cfg : CrawlerConfig) : DomainScheduler :=
  { cfg := cfg }

/-- Append `url` to the pending queue of the entry keyed `d` (dict update
at the unique key). -/
def updatePending (d url : String) : List (String × DomainState) → List (String × DomainState)
  | [] => []
  | p :: rest =>
    if p.1 = d then (p.1, { p.2 with pending_urls := p.2.pending_urls ++ [url] }) :: rest
    else p :: updatePending d url rest

/-- One iteration of the loop in `DomainScheduler.add_urls`: insert the
domain entry if missing, then append the URL to its queue. -/
def addUrl (s : DomainScheduler) (url : String) : DomainScheduler :=
  let d := extract_domain url
  if s.domains.any (fun p => p.1 = d) then
    { s with domains := updatePending d url s.domains }
  else
    { s with domains := s.domains ++ [(d, { domain := d, pending_urls := [url] })] }

/-- Embeds `DomainScheduler.add_urls`. -/
def add_urls (s : DomainScheduler) (urls : List String) : DomainScheduler :=
  urls.foldl addUrl s

/-- The loop body of `DomainScheduler.get_ready_urls`, threading the
rebuilt domain list, the in-flight set and the output list.  A domain is
skipped when its queue is empty or it is in flight; otherwise, when the
cooldown has elapsed, the head URL is popped, the domain goes in flight
and the URL is emitted. -/
def readyStep (cfg : CrawlerConfig) (now : ℤ)
    (acc : List (String × DomainState) × List String × List String)
    (p : String × DomainState) :
    List (String × DomainState) × List String × List String :=
  match acc, p.2.pending_urls with
  | (ds, infl, ready), [] => (ds ++ [p], infl, ready)
  | (ds, infl, ready), url :: rest =>
    if p.1 ∈ infl then (ds ++ [p], infl, ready)
    else if cfg.domain_delay_sec ≤ now - p.2.last_crawl_ts then
      (ds ++ [(p.1, { p.2 with pending_urls := rest })], infl ++ [p.1], ready ++ [url])
    else (ds ++ [p], infl, ready)

/-- Embeds `DomainScheduler.get_ready_urls`; `now` stands for the
`time.time()` sample taken at the head of the method. -/
def get_ready_urls (s : DomainScheduler) (now : ℤ) : List String × DomainScheduler :=
  let r := s.domains.foldl (readyStep s.cfg now) ([], s.in_flight, [])
  (r.2.2, { s with domains := r.1, in_flight := r.2.1 })

/-- Set `last_crawl_ts` of the entry keyed `d` (dict update at the unique
key). -/
def setTs (d : String) (now : ℤ) : List (String × DomainState) → List (String × DomainState)
  | [] => []
  | p :: rest =>
    if p.1 = d then (p.1, { p.2 with last_crawl_ts := now }) :: rest
    else p :: setTs d now rest

/-- Embeds `DomainScheduler.mark_done`; `now` stands for the
`time.time()` sample. -/
def mark_done (s : DomainScheduler) (url : String) (now : ℤ) : DomainScheduler :=
  let d := extract_domain url
  { s with
    in_flight := s.in_flight.filter (fun x => x ≠ d),
    domains := if s.domains.any (fun p => p.1 = d) then setTs d now s.domains else s.domains }

/-- Embeds `DomainScheduler.n_pending`. -/
def n_pending (s : DomainScheduler) : Nat :=
  (s.domains.map (fun p => p.2.pending_urls.length)).sum

/-- Occurrences of the URL `u` across all pending queues. -/
def pendingCount (s : DomainScheduler) (u : String) : Nat :=
  (s.domains.map (fun p => p.2.pending_urls.count u)).sum

/-- A lifetime of scheduler operations: each `get_ready_urls` and
`mark_done` carries its `time.time()` sample. -/
inductive SchedOp where
  | add (urls : List String)
  | getReady (now : ℤ)
  | markDone (url : String) (now : ℤ)
deriving DecidableEq, Repr

/-- Apply one operation, returning the new state and the URLs the
operation emitted. -/
def applyOp (s : DomainScheduler) : SchedOp → DomainScheduler × List String
  | .add urls => (add_urls s urls, [])
  | .getReady now => ((get_ready_urls s now).2, (get_ready_urls s now).1)
  | .markDone url now => (mark_done s url now, [])

/-- Run a sequence of operations, collecting every emitted URL in order. -/
def runOps (s : DomainScheduler) : List SchedOp → DomainScheduler × List String
  | [] => (s, [])
  | op :: rest =>
    let r1 := applyOp s op
    let r2 := runOps r1.1 rest
    (r2.1, r1.2 ++ r2.2)

/-- Occurrences of the URL `u` in the arguments of all `add_urls`
operations of a lifetime. -/
def addedCount (ops : List SchedOp) (u : String) : Nat :=
  (ops.map (fun op => match op with | .add urls => urls.count u | _ => 0)).sum

/-! ### `browser.py`

The Playwright handles `self._pw`, `self._browser` and `self._ctx` are
embedded as `Option Nat`, a `some` carrying the generation number of the
launch that produced the handle; `next_gen` counts launches so that a
teardown-and-relaunch is observable as a change of generation.  Note
that, exactly as in the source, no code path ever assigns `self._ctx` a
non-`none` value: `crawl_url` keeps its context in a local variable. -/

/-- Embeds the state of `BrowserManager.__init__`. -/
structure BrowserManager where
  cfg : CrawlerConfig
  pw : Option Nat := none
  browser : Option Nat := none
  ctx : Option Nat := none
  n_failures : Nat := 0
  max_failures : Nat := 3
  next_gen : Nat := 0
deriving DecidableEq, Repr

/-- A manager fresh out of `BrowserManager.__init__`. -/
def freshManager (cfg : CrawlerConfig) : BrowserManager :=
  { cfg := cfg }

/-- Embeds `BrowserManager.ensure_browser`: launch when absent and reset
the failure counter; no-op when the browser handle is present. -/
def ensure_browser (m : BrowserManager) : BrowserManager :=
  if m.browser.isSome then m
  else
    { m with
      pw := some m.next_gen, browser := some m.next_gen,
      n_failures := 0, next_gen := m.next_gen + 1 }

/-- Embeds `BrowserManager.close`: drop context, browser and playwright
handles. -/
def closeBrowser (m : BrowserManager) : BrowserManager :=
  { m with ctx := none, browser := none, pw := none }

/-- Embeds `BrowserManager.restart`: the source returns immediately when
`self._ctx is None`, otherwise closes and relaunches. -/
def restart (m : BrowserManager) : BrowserManager :=
  if m.ctx = none then m
  else ensure_browser (closeBrowser m)

/-- The transience test of `BrowserManager.on_failure`: the first
membership test is on the raw message, only the second lowercases it. -/
def isTransientError (msg : String) : Bool :=
  containsSub "browser has been closed".data msg.data ||
  containsSub "context".data (lowerStr msg).data

/-- Embeds `BrowserManager.on_failure`: transient messages are ignored;
otherwise the counter is incremented and, at the threshold, zeroed
before `restart` runs. -/
def on_failure (m : BrowserManager) (msg : String) : BrowserManager :=
  if isTransientError msg then m
  else
    let m1 := { m with n_failures := m.n_failures + 1 }
    if m1.max_failures ≤ m1.n_failures then restart { m1 with n_failures := 0 }
    else m1

/-- Embeds `BrowserManager.on_success`. -/
def on_success (m : BrowserManager) : BrowserManager :=
  { m with n_failures := 0 }

/-- Outcome of `page.goto` followed by `page.wait_for_load_state` in
`BrowserManager._do_crawl`: either both return, or one raises `msg`. -/
inductive NavOutcome where
  | ok
  | exn (msg : String)
deriving DecidableEq, Repr

/-- UTF-8 byte length of a string (`len(html.encode("utf-8"))`). -/
def utf8Len (s : String) : Nat := s.utf8ByteSize

/-- Embeds `BrowserManager._do_crawl` with the Playwright page
interaction abstracted into parameters: `ib` is the byte count captured
by the response observer, `nav` the navigation outcome, and `content`
the result of `page.content()` (`Except.error` models it raising).  A
navigation exception whose message contains "timeout" (lowercased)
yields a TIMEOUT result; any other exception propagates. -/
def do_crawl (url : String) (ib : Nat) (nav : NavOutcome)
    (content : Except String String) (t : ℤ) : Except String CrawlResult :=
  match nav with
  | .ok =>
    match content with
    | .ok html =>
      .ok { url := url, status := .success, initial_html_bytes := ib,
            rendered_html_bytes := utf8Len html, elapsed_sec := t }
    | .error e => .error e
  | .exn msg =>
    if containsSub "timeout".data (lowerStr msg).data then
      .ok { url := url, status := .timeout, initial_html_bytes := ib,
            rendered_html_bytes := (content.toOption.map utf8Len).getD 0,
            error := some msg, elapsed_sec := t }
    else .error msg

/-- What one fetch attempt does between `ensure_browser` and the result:
either context/page creation raises before `_do_crawl` starts, or the
page pipeline runs with the given observer/navigation/content data. -/
inductive PageRun where
  | raised (msg : String)
  | ran (ib : Nat) (nav : NavOutcome) (content : Except String String)
deriving Repr

/-- The FAILED result built in the `except` arm of
`BrowserManager.crawl_url`. -/
def mkFailed (url msg : String) (t : ℤ) : CrawlResult :=
  { url := url, status := .failed, error := some msg, elapsed_sec := t }

/-- Embeds `BrowserManager.crawl_url`: ensure the engine, run the page
pipeline; a result returned by `_do_crawl` triggers `on_success`, an
escaping exception triggers `on_failure` and a FAILED result.  `t` is
the elapsed wall-clock time. -/
def crawl_url (m : BrowserManager) (url : String) (run : PageRun) (t : ℤ) :
    BrowserManager × CrawlResult :=
  let m1 := ensure_browser m
  match run with
  | .raised msg => (on_failure m1 msg, mkFailed url msg t)
  | .ran ib nav content =>
    match do_crawl url ib nav content t with
    | .ok res => (on_success m1, res)
    | .error msg => (on_failure m1 msg, mkFailed url msg t)

/-! ### `actor.py`

Reply futures are embedded as numbered slots in a list; a `CallMsg`
carries its slot index.  `_Mailbox.close` appends a `CastMsg` whose
payload is Python `None`; since real casts carry a `CastT`, the payload
type in the embedding is `Option CastT`, with `none` for the sentinel.
Handlers are embedded as pure functions that either return the new actor
state (and, for calls, an optional reply to send) or crash with an
error. -/

/-- Embeds `CallMsg`/`CastMsg` (`slot` indexes the reply future). -/
inductive ActorMsg (CallT CastT : Type) where
  | call (value : CallT) (slot : Nat)
  | cast (value : Option CastT)
deriving DecidableEq, Repr

/-- Embeds `_Mailbox`: a FIFO queue and a closed flag. -/
structure Mailbox (CallT CastT : Type) where
  queue : List (ActorMsg CallT CastT) := []
  closed : Bool := false
deriving DecidableEq, Repr

/-- Embeds `_Mailbox.put`. -/
def Mailbox.put (mb : Mailbox CallT CastT) (m : ActorMsg CallT CastT) :
    Mailbox CallT CastT :=
  { mb with queue := mb.queue ++ [m] }

/-- Embeds `_Mailbox.close`: set the flag and enqueue the `None` cast
sentinel. -/
def Mailbox.close (mb : Mailbox CallT CastT) : Mailbox CallT CastT :=
  { mb with closed := true, queue := mb.queue ++ [.cast none] }

/-- Result of `_Mailbox.recv`: `shutdown` models `QueueShutDown`,
`blocked` models awaiting an open empty queue forever. -/
inductive RecvResult (CallT CastT : Type) where
  | shutdown
  | blocked
  | msg (m : ActorMsg CallT CastT) (rest : Mailbox CallT CastT)
deriving DecidableEq, Repr

/-- Embeds `_Mailbox.recv`: `QueueShutDown` only when closed *and*
empty; a queued message is delivered even after close. -/
def Mailbox.recv (mb : Mailbox CallT CastT) : RecvResult CallT CastT :=
  match mb.queue with
  | [] => if mb.closed then .shutdown else .blocked
  | m :: rest => .msg m { mb with queue := rest }

/-- Embeds the states of an `asyncio.Future` used as a reply slot. -/
inductive FutureState (ReplyT Err : Type) where
  | pending
  | resolved (value : ReplyT)
  | failed (e : Err)
  | cancelled
deriving DecidableEq, Repr

/-- Embeds `_ReplySender.send` / `future.set_result` guarded by
`future.done()`: resolve slot `i` only when it is still pending. -/
def resolveSlot (slots : List (FutureState ReplyT Err)) (i : Nat) (v : ReplyT) :
    List (FutureState ReplyT Err) :=
  match slots.get? i with
  | some .pending => slots.set i (.resolved v)
  | _ => slots

/-- The per-message body of `Actor._fail_pending`: fail (or cancel) slot
`i` when it is still pending. -/
def failSlot (err : Option Err) (slots : List (FutureState ReplyT Err)) (i : Nat) :
    List (FutureState ReplyT Err) :=
  match slots.get? i with
  | some .pending =>
    slots.set i (match err with | some e => .failed e | none => .cancelled)
  | _ => slots

/-- Embeds `Actor._fail_pending`: drain the residual queue with
`try_recv`, failing every still-pending call future with the exit error
(or cancelling it when the exit is clean); casts are skipped. -/
def fail_pending (err : Option Err) (slots : List (FutureState ReplyT Err)) :
    List (ActorMsg CallT CastT) → List (FutureState ReplyT Err)
  | [] => slots
  | .call _ i :: rest => fail_pending err (failSlot err slots i) rest
  | .cast _ :: rest => fail_pending err slots rest

/-- The overridable hooks of `Actor`, embedded as pure functions; an
`Except.error` models the hook raising. -/
structure ActorBehavior (CallT CastT ReplyT Err St : Type) where
  initHook : St → Except Err St
  handleCast : Option CastT → St → Except Err St
  handleCall : CallT → St → Except Err (St × Option ReplyT)
  beforeExit : Option Err → St → Option Err

/-- The mutable pieces threaded through `Actor._run`. -/
structure ActorState (CallT CastT ReplyT Err St : Type) where
  mb : Mailbox CallT CastT
  slots : List (FutureState ReplyT Err)
  st : St

/-- How a run of the actor ends within the given fuel. -/
inductive RunOutcome (ReplyT Err St : Type) where
  | done (exit_result : Option Err) (slots : List (FutureState ReplyT Err)) (st : St)
  | blocked
  | outOfFuel
deriving DecidableEq, Repr

/-- The `finally` block of `Actor._run`: run `before_exit` on the loop's
error, then `_fail_pending` with the (possibly transformed) error; the
transformed error is the recorded `exit_result`. -/
def finishRun (b : ActorBehavior CallT CastT ReplyT Err St) (err : Option Err)
    (a : ActorState CallT CastT ReplyT Err St) : RunOutcome ReplyT Err St :=
  let err2 := b.beforeExit err a.st
  .done err2 (fail_pending err2 a.slots a.mb.queue) a.st

/-- The message loop of `Actor._run`: receive, dispatch by kind; a
handler crash ends the loop with that error, `QueueShutDown` ends it
cleanly. -/
def runLoop (b : ActorBehavior CallT CastT ReplyT Err St) :
    Nat → ActorState CallT CastT ReplyT Err St → RunOutcome ReplyT Err St
  | 0, _ => .outOfFuel
  | fuel + 1, a =>
    match a.mb.recv with
    | .shutdown => finishRun b none a
    | .blocked => .blocked
    | .msg m mb1 =>
      match m with
      | .cast v =>
        match b.handleCast v a.st with
        | .ok st1 => runLoop b fuel { a with mb := mb1, st := st1 }
        | .error e => finishRun b (some e) { a with mb := mb1 }
      | .call v i =>
        match b.handleCall v a.st with
        | .ok (st1, reply) =>
          let slots1 := match reply with
            | some rv => resolveSlot a.slots i rv
            | none => a.slots
          runLoop b fuel { mb := mb1, slots := slots1, st := st1 }
        | .error e => finishRun b (some e) { a with mb := mb1 }

/-- Embeds `Actor._run`: run `init` (a failure goes straight to the
teardown path), then the message loop. -/
def runActor (b : ActorBehavior CallT CastT ReplyT Err St) (fuel : Nat)
    (a : ActorState CallT CastT ReplyT Err St) : RunOutcome ReplyT Err St :=
  match b.initHook a.st with
  | .ok st1 => runLoop b fuel { a with st := st1 }
  | .error e => finishRun b (some e) a

/-! ### Characterization helpers and concrete scenarios -/

/-- The dispatch condition of `get_ready_urls` for one domain entry,
relative to a given in-flight set: non-empty queue, not in flight,
cooldown elapsed. -/
def eligibleB (cfg : CrawlerConfig) (infl : List String) (now : ℤ)
    (p : String × DomainState) : Bool :=
  !p.2.pending_urls.isEmpty && decide (p.1 ∉ infl) &&
  decide (cfg.domain_delay_sec ≤ now - p.2.last_crawl_ts)

/-- A domain entry with the head of its queue popped. -/
def popEntry (p : String × DomainState) : String × DomainState :=
  (p.1, { p.2 with pending_urls := p.2.pending_urls.tail })

/-- A configuration with no politeness delay, for concrete scenarios. -/
def cfg0 : CrawlerConfig := { domain_delay_sec := 0 }

/-- Scenario: the same URL string added twice, dispatched, completed and
dispatched again. -/
def c5ops : List SchedOp :=
  [.add ["https://a.com/x", "https://a.com/x"], .getReady 1,
   .markDone "https://a.com/x" 2, .getReady 3]

/-- Scenario: one domain with two queued URLs, nothing in flight. -/
def s4 : DomainScheduler :=
  { cfg := {},
    domains := [("a.com",
      { domain := "a.com", last_crawl_ts := 0,
        pending_urls := ["https://a.com/1", "https://a.com/2"] })],
    in_flight := [] }

/-- Scenario: a scheduler knowing only `a.com`, with `a.com` in flight. -/
def s8 : DomainScheduler :=
  { cfg := {},
    domains := [("a.com",
      { domain := "a.com", last_crawl_ts := 0, pending_urls := ["https://a.com/1"] })],
    in_flight := ["a.com"] }

/-- Scenario: the manager right after its first `ensure_browser`. -/
def c1_m1 : BrowserManager := ensure_browser (freshManager {})

/-- Scenario: three consecutive non-transient failures on `c1_m1`. -/
def c1_m4 : BrowserManager :=
  on_failure (on_failure (on_failure c1_m1 "boom") "boom") "boom"

/-- An actor whose `handle_call` always raises, with the default
`before_exit` (return the error unchanged); models S6 of the spec. -/
def crashOnCall : ActorBehavior String Unit Unit String Unit :=
  { initHook := fun s => .ok s
    handleCast := fun _ s => .ok s
    handleCall := fun _ _ => .error "ValueError: boom"
    beforeExit := fun e _ => e }

/-- The actor state at crash time for the S6 scenario: two callers in
flight, reply slots 0 and 1 both pending, both call messages queued. -/
def c2_start : ActorState String Unit Unit String Unit :=
  ⟨⟨[.call "x" 0, .call "y" 1], false⟩, [.pending, .pending], ()⟩

/-- An actor that records every `handle_cast` payload it receives, with
default `init` and `before_exit`. -/
def castRecorder (CastT : Type) :
    ActorBehavior Empty CastT Unit String (List (Option CastT)) :=
  { initHook := fun s => .ok s
    handleCast := fun v log => .ok (log ++ [v])
    handleCall := fun c _ => nomatch c
    beforeExit := fun e _ => e }

/-! ## Theorems -/

/-- C6: the admission decision is true exactly when all three resource
predicates hold: CPU below its threshold, memory percent below its
threshold, and available memory above the floor. -/
theorem c6_can_launch_more_iff (cfg : CrawlerConfig) (stats : ResourceStats) :
    can_launch_more cfg stats = true ↔
      (stats.cpu_pct < cfg.cpu_threshold ∧ stats.mem_pct < cfg.mem_threshold ∧
       stats.mem_avail_mb > cfg.min_mem_avail_mb) := by
  simp [can_launch_more, and_assoc]

/-- C7 counterexample: admission is not monotone in CPU slack and memory
availability alone.  Under the default thresholds, the sample (10, 10,
1000) is admitted, the sample (5, 90, 2000) has strictly lower CPU and
strictly higher available memory, yet it is rejected (its memory percent
crossed the threshold). -/
theorem c7_counterexample :
    can_launch_more {} ⟨10, 10, 1000⟩ = true ∧
    (5 : ℤ) < 10 ∧ (1000 : ℤ) < 2000 ∧
    can_launch_more {} ⟨5, 90, 2000⟩ = false := by
  decide

/-- C7 (amended): admission is monotone in resource slack when the
memory-percent coordinate is also not worse: if the decision is true
under stats S, it is true under any S' with CPU not higher, memory
percent not higher and available memory not lower. -/
theorem c7_admission_monotone (cfg : CrawlerConfig) (S S' : ResourceStats)
    (h : can_launch_more cfg S = true)
    (hcpu : S'.cpu_pct ≤ S.cpu_pct) (hmem : S'.mem_pct ≤ S.mem_pct)
    (havail : S.mem_avail_mb ≤ S'.mem_avail_mb) :
    can_launch_more cfg S' = true := by
  rw [c6_can_launch_more_iff] at h ⊢
  exact ⟨lt_of_le_of_lt hcpu h.1, lt_of_le_of_lt hmem h.2.1,
    lt_of_lt_of_le h.2.2 havail⟩

/-- Witness for C7: the monotonicity theorem applied to concrete
samples. -/
theorem c7_witness : can_launch_more {} ⟨5, 15, 2000⟩ = true :=
  c7_admission_monotone {} ⟨10, 20, 1000⟩ ⟨5, 15, 2000⟩ (by decide) (by decide)
    (by decide) (by decide)

/-- C8: `mark_done` for a URL whose domain has no entry in the domain
map and is not in flight leaves the scheduler state unchanged. -/
theorem c8_mark_done_unknown_noop (s : DomainScheduler) (url : String) (now : ℤ)
    (hdom : ∀ p ∈ s.domains, p.1 ≠ extract_domain url)
    (hfl : extract_domain url ∉ s.in_flight) :
    mark_done s url now = s := by
  have hany : (s.domains.any fun p => decide (p.1 = extract_domain url)) = false := by
    simp only [List.any_eq_false, decide_eq_true_eq]
    exact hdom
  have hfilter : (s.in_flight.filter fun x => x ≠ extract_domain url) = s.in_flight := by
    rw [List.filter_eq_self]
    intro x hx
    rw [decide_eq_true_eq]
    intro hxx
    exact hfl (hxx ▸ hx)
  simp only [mark_done, hany, hfilter, Bool.false_eq_true, if_false]

/-- Witness for C8: marking a URL of the unknown domain `b.org` done
changes nothing on a scheduler that only knows `a.com`. -/
theorem c8_witness : mark_done s8 "https://b.org/z" 5 = s8 :=
  c8_mark_done_unknown_noop s8 "https://b.org/z" 5 (by decide) (by decide)

/-- C3 counterexample: the message "Browser Has Been Closed" is claimed
transient under case-insensitive matching, but `on_failure` increments
the failure counter on it (the first membership test of the source is
case-sensitive and the lowercased message does not contain "context"). -/
theorem c3_counterexample :
    ¬ (on_failure c1_m1 "Browser Has Been Closed").n_failures = c1_m1.n_failures := by
  decide

/-- C3 (amended): a failure is treated as transient — no counter
increment, no restart, state unchanged — exactly for messages that
contain "browser has been closed" in that exact casing or contain
"context" case-insensitively. -/
theorem c3_transient_not_counted (m : BrowserManager) (msg : String)
    (h : containsSub "browser has been closed".data msg.data = true ∨
         containsSub "context".data (lowerStr msg).data = true) :
    on_failure m msg = m := by
  have ht : isTransientError msg = true := by
    rcases h with h | h <;> simp [isTransientError, h]
  simp [on_failure, ht]

/-- Witness for C3: a realistic transient message absorbed with no state
change. -/
theorem c3_witness :
    on_failure (freshManager {}) "Target page, context or browser has been closed" =
      freshManager {} :=
  c3_transient_not_counted (freshManager {}) _ (Or.inl (by decide))

/-- C1 (evaluation at the failing input): after `ensure_browser` and
three consecutive non-transient failures, the counter is reset to 0 as
claimed, but `restart` is a no-op — the browser handle still carries the
original launch generation and no new launch happened — because
`self._ctx` is `None` on every code path, so the engine is never torn
down and relaunched. -/
theorem c1_three_failures_no_relaunch :
    c1_m4.n_failures = 0 ∧ restart c1_m1 = c1_m1 ∧
    c1_m4.browser = c1_m1.browser ∧ c1_m4.next_gen = c1_m1.next_gen ∧
    c1_m4.ctx = none := by
  decide

/-- C2 (evaluation at the failing input): a `handle_call` that raises
with two callers in flight (slot 0 being handled, slot 1 still queued)
terminates the run with the crash recorded, fails slot 1 with the crash
error, but leaves slot 0 — the caller whose message was being handled —
forever pending. -/
theorem c2_current_caller_left_pending :
    runActor crashOnCall 5 c2_start =
      .done (some "ValueError: boom") [.pending, .failed "ValueError: boom"] () := by
  rfl

/-- C9: whenever `_do_crawl` returns a result without raising,
`crawl_url` runs `on_success` and the failure counter ends at 0; the
second conjunct exhibits that the no-raise results include TIMEOUT. -/
theorem c9_no_raise_resets_counter (m : BrowserManager) (url : String)
    (ib : Nat) (nav : NavOutcome) (content : Except String String) (t : ℤ)
    (res : CrawlResult) (h : do_crawl url ib nav content t = .ok res) :
    (crawl_url m url (.ran ib nav content) t).1.n_failures = 0 ∧
    (∃ r, do_crawl url 17 (.exn "Timeout 60000ms exceeded.") (.error "boom") t = .ok r ∧
      r.status = .timeout) := by
  refine ⟨?_, ⟨_, rfl, rfl⟩⟩
  simp [crawl_url, h, on_success]

/-- Witness for C9: a concrete TIMEOUT fetch leaves the failure counter
at 0. -/
theorem c9_witness :
    (crawl_url (freshManager {}) "https://a.com/1"
      (.ran 17 (.exn "Timeout 60000ms exceeded.") (.error "boom")) 1).1.n_failures = 0 :=
  (c9_no_raise_resets_counter (freshManager {}) "https://a.com/1" 17
    (.exn "Timeout 60000ms exceeded.") (.error "boom") 1 _ rfl).1

/-- The message loop of the recording actor drains a closed mailbox of
casts in order, delivering each payload to `handle_cast`, and then
observes shutdown cleanly. -/
lemma runLoop_castRecorder (CastT : Type) (opts : List (Option CastT)) :
    ∀ (fuel : Nat) (slots : List (FutureState Unit String)) (log : List (Option CastT)),
      opts.length + 1 ≤ fuel →
      runLoop (castRecorder CastT) fuel ⟨⟨opts.map ActorMsg.cast, true⟩, slots, log⟩ =
        .done none slots (log ++ opts) := by
  induction opts with
  | nil =>
    intro fuel slots log h
    match fuel, h with
    | fuel + 1, _ =>
      simp [runLoop, Mailbox.recv, finishRun, castRecorder, fail_pending]
  | cons o t ih =>
    intro fuel slots log h
    match fuel, h with
    | fuel + 1, h =>
      have h2 : t.length + 1 ≤ fuel := by
        simp only [List.length_cons] at h
        omega
      have hrec := ih fuel slots (log ++ [o]) h2
      simp only [List.map_cons, runLoop, Mailbox.recv, castRecorder] at hrec ⊢
      rw [hrec]
      simp

/-- C10: closing the mailbox enqueues a sentinel cast whose payload is
`None`; when the actor's run loop then drains the closed mailbox, the
sentinel is dispatched to `handle_cast` — one spurious `None`-payload
cast, delivered after all ordinary casts and before shutdown is
observed, with a clean (error-free) run result. -/
theorem c10_close_sentinel_cast (CastT : Type) (mb : Mailbox Empty CastT)
    (vs : List CastT) (fuel : Nat) (h : vs.length + 2 ≤ fuel) :
    (Mailbox.close mb).queue = mb.queue ++ [ActorMsg.cast none] ∧
    runActor (castRecorder CastT) fuel
      ⟨Mailbox.close ⟨vs.map (fun v => ActorMsg.cast (some v)), false⟩, [], []⟩ =
      .done none [] (vs.map some ++ [none]) := by
  constructor
  · rfl
  · have hq : (Mailbox.close ⟨vs.map (fun v => ActorMsg.cast (some v)), false⟩ :
        Mailbox Empty CastT) =
        ⟨(vs.map some ++ [none]).map ActorMsg.cast, true⟩ := by
      simp [Mailbox.close, List.map_map]
    rw [hq]
    have hl : (vs.map some ++ ([none] : List (Option CastT))).length + 1 ≤ fuel := by
      simp
      omega
    have hrun := runLoop_castRecorder CastT (vs.map some ++ [none]) fuel [] [] hl
    simpa [runActor, castRecorder] using hrun

/-- Witness for C10: closing an empty mailbox enqueues exactly the
sentinel, and an actor given one ordinary cast and then cancelled
handles `some 7` followed by the spurious `none`. -/
theorem c10_witness :
    (Mailbox.close (⟨[], false⟩ : Mailbox Empty Nat)).queue = [ActorMsg.cast none] ∧
    runActor (castRecorder Nat) 3
      ⟨Mailbox.close ⟨[ActorMsg.cast (some 7)], false⟩, [], []⟩ =
      .done none [] [some 7, none] :=
  c10_close_sentinel_cast Nat ⟨[], false⟩ [7] 3 (by decide)

/-- Bookkeeping of the `get_ready_urls` sweep: every URL the fold moves
out of a pending queue reappears in the output, so queued plus emitted
occurrences of any URL are conserved. -/
lemma readyFold_count (cfg : CrawlerConfig) (now : ℤ) (u : String) :
    ∀ (l ds : List (String × DomainState)) (infl ready : List String),
      (((l.foldl (readyStep cfg now) (ds, infl, ready)).1.map
          (fun p => p.2.pending_urls.count u)).sum +
        ((l.foldl (readyStep cfg now) (ds, infl, ready)).2.2.count u))
      = (ds.map (fun p => p.2.pending_urls.count u)).sum +
        (l.map (fun p => p.2.pending_urls.count u)).sum + ready.count u := by
  intro l
  induction l with
  | nil => intro ds infl ready; simp
  | cons p t ih =>
    intro ds infl ready
    rw [List.foldl_cons]
    rcases hp : p.2.pending_urls with _ | ⟨url, rest⟩
    · rw [show readyStep cfg now (ds, infl, ready) p = (ds ++ [p], infl, ready) from by
        simp [readyStep, hp]]
      rw [ih]
      simp [hp]
      try omega
    · by_cases hf : p.1 ∈ infl
      · rw [show readyStep cfg now (ds, infl, ready) p = (ds ++ [p], infl, ready) from by
          simp [readyStep, hp, hf]]
        rw [ih]
        simp [hp]
        try omega
      · by_cases hd : cfg.domain_delay_sec ≤ now - p.2.last_crawl_ts
        · rw [show readyStep cfg now (ds, infl, ready) p =
              (ds ++ [(p.1, { p.2 with pending_urls := rest })], infl ++ [p.1], ready ++ [url])
              from by simp [readyStep, hp, hf, hd]]
          rw [ih]
          simp [hp, List.count_append, List.count_cons]
          by_cases hu : url = u <;> (simp [hu]; try omega)
        · rw [show readyStep cfg now (ds, infl, ready) p = (ds ++ [p], infl, ready) from by
            simp [readyStep, hp, hf, hd]]
          rw [ih]
          simp [hp]
          try omega

/-- Occurrences of a URL across pending queues plus its occurrences in
the emitted list are conserved by `get_ready_urls`. -/
lemma pendingCount_get_ready (s : DomainScheduler) (now : ℤ) (u : String) :
    pendingCount (get_ready_urls s now).2 u + ((get_ready_urls s now).1).count u
      = pendingCount s u := by
  have h := readyFold_count s.cfg now u s.domains [] s.in_flight []
  simp only [List.map_nil, List.sum_nil, List.count_nil, Nat.zero_add, Nat.add_zero] at h
  simpa [get_ready_urls, pendingCount] using h

/-- Appending a URL to the queue of a present key adds exactly its
occurrences. -/
lemma pendingCount_updatePending (d url u : String) :
    ∀ l : List (String × DomainState), (l.any fun p => decide (p.1 = d)) = true →
      (((updatePending d url l).map (fun p => p.2.pending_urls.count u)).sum)
        = ((l.map (fun p => p.2.pending_urls.count u)).sum) + [url].count u := by
  intro l
  induction l with
  | nil => intro h; simp at h
  | cons p t ih =>
    intro h
    by_cases hp : p.1 = d
    · simp [updatePending, hp, List.count_append]
      omega
    · have ht : (t.any fun p => decide (p.1 = d)) = true := by
        simp [List.any_cons, hp] at h
        simpa using h
      simp [updatePending, hp, ih ht]
      omega

/-- One `add_urls` iteration adds exactly the added URL's occurrences to
the pending multiset. -/
lemma pendingCount_addUrl (s : DomainScheduler) (url u : String) :
    pendingCount (addUrl s url) u = pendingCount s u + [url].count u := by
  by_cases h : (s.domains.any fun p => decide (p.1 = extract_domain url)) = true
  · simp [addUrl, pendingCount, h, pendingCount_updatePending _ _ _ _ h]
  · simp only [Bool.not_eq_true] at h
    simp [addUrl, pendingCount, h]

/-- `add_urls` adds exactly the occurrences of each URL in its argument
to the pending multiset. -/
lemma pendingCount_add_urls (urls : List String) :
    ∀ (s : DomainScheduler) (u : String),
      pendingCount (add_urls s urls) u = pendingCount s u + urls.count u := by
  induction urls with
  | nil => intro s u; simp [add_urls]
  | cons x t ih =>
    intro s u
    have hstep : add_urls s (x :: t) = add_urls (addUrl s x) t := rfl
    rw [hstep, ih, pendingCount_addUrl]
    simp [List.count_cons]
    by_cases hx : x = u <;> (simp [hx]; try omega)

/-- Updating a timestamp never changes any pending queue. -/
lemma pendingCount_setTs (d : String) (now : ℤ) (u : String) :
    ∀ l : List (String × DomainState),
      ((setTs d now l).map (fun p => p.2.pending_urls.count u)).sum
        = (l.map (fun p => p.2.pending_urls.count u)).sum := by
  intro l
  induction l with
  | nil => simp [setTs]
  | cons p t ih =>
    by_cases hp : p.1 = d <;> simp [setTs, hp, ih]

/-- `mark_done` never changes the pending multiset. -/
lemma pendingCount_mark_done (s : DomainScheduler) (url : String) (now : ℤ) (u : String) :
    pendingCount (mark_done s url now) u = pendingCount s u := by
  by_cases h : (s.domains.any fun p => decide (p.1 = extract_domain url)) = true
  · simp [mark_done, pendingCount, h, pendingCount_setTs]
  · simp only [Bool.not_eq_true] at h
    simp [mark_done, pendingCount, h]

/-- Conservation over a whole lifetime: emitted occurrences plus still
pending occurrences of a URL equal initially pending plus added ones. -/
lemma runOps_count (u : String) :
    ∀ (ops : List SchedOp) (s : DomainScheduler),
      ((runOps s ops).2).count u + pendingCount (runOps s ops).1 u
        = pendingCount s u + addedCount ops u := by
  intro ops
  induction ops with
  | nil => intro s; simp [runOps, addedCount]
  | cons op t ih =>
    intro s
    rcases op with urls | now | ⟨url, now⟩
    · simp only [runOps, applyOp, addedCount, List.map_cons, List.sum_cons,
        List.count_append, List.count_nil, List.nil_append]
      have h1 := ih (add_urls s urls)
      rw [pendingCount_add_urls] at h1
      simp [addedCount] at h1 ⊢
      omega
    · simp only [runOps, applyOp, addedCount, List.map_cons, List.sum_cons, List.count_append]
      have h1 := ih (get_ready_urls s now).2
      have h2 := pendingCount_get_ready s now u
      simp [addedCount] at h1 ⊢
      omega
    · simp only [runOps, applyOp, addedCount, List.map_cons, List.sum_cons,
        List.count_append, List.count_nil, List.nil_append]
      have h1 := ih (mark_done s url now)
      rw [pendingCount_mark_done] at h1
      simp [addedCount] at h1 ⊢
      omega

/-- C5 counterexample: with no politeness delay, adding the same URL
string twice (no deduplication) makes `get_ready_urls` return it twice
over the lifetime, contradicting at-most-once for URL strings. -/
theorem c5_counterexample :
    ¬ (((runOps (initScheduler cfg0) c5ops).2).count "https://a.com/x" ≤ 1) := by
  decide

/-- C5 (amended): a queued URL occurrence is returned at most once: over
any lifetime of operations started from a fresh scheduler, a URL string
is returned by `get_ready_urls` at most as many times as it was passed
to `add_urls`; a string added more than once may be returned more than
once. -/
theorem c5_returned_at_most_added (cfg : CrawlerConfig) (ops : List SchedOp) (u : String) :
    ((runOps (initScheduler cfg) ops).2).count u ≤ addedCount ops u := by
  have h := runOps_count u ops (initScheduler cfg)
  have h0 : pendingCount (initScheduler cfg) u = 0 := rfl
  rw [h0] at h
  omega

/-- The dispatch condition unfolded to its three conjuncts. -/
lemma eligibleB_iff (cfg : CrawlerConfig) (infl : List String) (now : ℤ)
    (p : String × DomainState) :
    eligibleB cfg infl now p = true ↔
      (p.2.pending_urls ≠ [] ∧ p.1 ∉ infl ∧
       cfg.domain_delay_sec ≤ now - p.2.last_crawl_ts) := by
  simp [eligibleB, and_assoc]

/-- Putting a different domain in flight does not change a domain's
dispatch condition. -/
lemma eligibleB_append (cfg : CrawlerConfig) (infl : List String) (now : ℤ)
    (x : String) (q : String × DomainState) (h : q.1 ≠ x) :
    eligibleB cfg (infl ++ [x]) now q = eligibleB cfg infl now q := by
  simp [eligibleB, List.mem_append, h]

/-- Characterization of the `get_ready_urls` sweep under unique domain
keys: each entry is popped exactly when it is dispatchable relative to
the initial in-flight set, the keys of dispatched entries are appended
to the in-flight set, and the popped heads are emitted in domain order. -/
lemma readyFold_eq (cfg : CrawlerConfig) (now : ℤ) :
    ∀ (l ds : List (String × DomainState)) (infl ready : List String),
      (l.map Prod.fst).Nodup →
      l.foldl (readyStep cfg now) (ds, infl, ready) =
        (ds ++ l.map (fun p => if eligibleB cfg infl now p then popEntry p else p),
         infl ++ l.filterMap (fun p => if eligibleB cfg infl now p then some p.1 else none),
         ready ++ l.filterMap (fun p =>
           if eligibleB cfg infl now p then some p.2.pending_urls.headI else none)) := by
  intro l
  induction l with
  | nil => intro ds infl ready _; simp
  | cons p t ih =>
    intro ds infl ready hnd
    simp only [List.map_cons, List.nodup_cons] at hnd
    have hpt : p.1 ∉ t.map Prod.fst := hnd.1
    have hndt : (t.map Prod.fst).Nodup := hnd.2
    rw [List.foldl_cons]
    rcases hp : p.2.pending_urls with _ | ⟨url, rest⟩
    · have he : eligibleB cfg infl now p = false := by simp [eligibleB, hp]
      rw [show readyStep cfg now (ds, infl, ready) p = (ds ++ [p], infl, ready) from by
        simp [readyStep, hp]]
      rw [ih (ds ++ [p]) infl ready hndt]
      simp [he]
    · by_cases hf : p.1 ∈ infl
      · have he : eligibleB cfg infl now p = false := by simp [eligibleB, hf]
        rw [show readyStep cfg now (ds, infl, ready) p = (ds ++ [p], infl, ready) from by
          simp [readyStep, hp, hf]]
        rw [ih (ds ++ [p]) infl ready hndt]
        simp [he]
      · by_cases hd : cfg.domain_delay_sec ≤ now - p.2.last_crawl_ts
        · have he : eligibleB cfg infl now p = true := by simp [eligibleB, hp, hf, hd]
          rw [show readyStep cfg now (ds, infl, ready) p =
              (ds ++ [(p.1, { p.2 with pending_urls := rest })], infl ++ [p.1], ready ++ [url])
              from by simp [readyStep, hp, hf, hd]]
          rw [ih _ (infl ++ [p.1]) _ hndt]
          have hcong : ∀ q ∈ t,
              eligibleB cfg (infl ++ [p.1]) now q = eligibleB cfg infl now q := by
            intro q hq
            refine eligibleB_append cfg infl now p.1 q (fun hqq => hpt ?_)
            exact hqq ▸ List.mem_map_of_mem Prod.fst hq
          have hmap : t.map (fun q =>
                if eligibleB cfg (infl ++ [p.1]) now q then popEntry q else q)
              = t.map (fun q => if eligibleB cfg infl now q then popEntry q else q) :=
            List.map_congr_left (fun q hq => by rw [hcong q hq])
          have hfm1 : t.filterMap (fun q =>
                if eligibleB cfg (infl ++ [p.1]) now q then some q.1 else none)
              = t.filterMap (fun q => if eligibleB cfg infl now q then some q.1 else none) :=
            List.filterMap_congr (fun q hq => by rw [hcong q hq])
          have hfm2 : t.filterMap (fun q =>
                if eligibleB cfg (infl ++ [p.1]) now q then some q.2.pending_urls.headI else none)
              = t.filterMap (fun q =>
                if eligibleB cfg infl now q then some q.2.pending_urls.headI else none) :=
            List.filterMap_congr (fun q hq => by rw [hcong q hq])
          rw [hmap, hfm1, hfm2]
          simp [he, hp, popEntry]
        · have he : eligibleB cfg infl now p = false := by simp [eligibleB, hd]
          rw [show readyStep cfg now (ds, infl, ready) p = (ds ++ [p], infl, ready) from by
            simp [readyStep, hp, hf, hd]]
          rw [ih (ds ++ [p]) infl ready hndt]
          simp [he]

/-- The three components of `get_ready_urls` in closed form. -/
lemma get_ready_urls_eq (s : DomainScheduler) (now : ℤ)
    (hnd : (s.domains.map Prod.fst).Nodup) :
    (get_ready_urls s now).1 = s.domains.filterMap (fun p =>
        if eligibleB s.cfg s.in_flight now p then some p.2.pending_urls.headI else none) ∧
    (get_ready_urls s now).2.domains = s.domains.map (fun p =>
        if eligibleB s.cfg s.in_flight now p then popEntry p else p) ∧
    (get_ready_urls s now).2.in_flight = s.in_flight ++ s.domains.filterMap (fun p =>
        if eligibleB s.cfg s.in_flight now p then some p.1 else none) := by
  have h := readyFold_eq s.cfg now s.domains [] s.in_flight [] hnd
  refine ⟨?_, ?_, ?_⟩ <;> simp [get_ready_urls, h]


/-- In an association list with nodup keys, entries are determined by
their key. -/
lemma key_inj {A : Type} {l : List (String × A)} (h : (l.map Prod.fst).Nodup)
    {p q : String × A} (hp : p ∈ l) (hq : q ∈ l) (hk : p.1 = q.1) : p = q := by
  induction l with
  | nil => cases hp
  | cons a t ih =>
    simp only [List.map_cons, List.nodup_cons] at h
    rcases List.mem_cons.mp hp with rfl | hp'
    · rcases List.mem_cons.mp hq with rfl | hq'
      · rfl
      · exact absurd (hk ▸ List.mem_map_of_mem Prod.fst hq') h.1
    · rcases List.mem_cons.mp hq with rfl | hq'
      · exact absurd (hk ▸ List.mem_map_of_mem Prod.fst hp') h.1
      · exact ih h.2 hp' hq'

/-- Counting in a `filterMap` image equals counting sources whose image
satisfies the predicate. -/
lemma countP_filterMap {A B : Type} (f : A → Option B) (q : B → Bool) :
    ∀ l : List A, (l.filterMap f).countP q
      = l.countP (fun a => match f a with | some b => q b | none => false) := by
  intro l
  induction l with
  | nil => simp
  | cons a t ih =>
    rcases hfa : f a with _ | b
    · rw [List.filterMap_cons_none hfa, List.countP_cons, ih]
      simp [hfa]
    · rw [List.filterMap_cons_some hfa, List.countP_cons, List.countP_cons, ih]
      simp [hfa]

/-- With nodup keys, at most one entry carries any given key. -/
lemma countP_key_le_one {A : Type} {l : List (String × A)}
    (h : (l.map Prod.fst).Nodup) (d : String) :
    l.countP (fun p => decide (p.1 = d)) ≤ 1 := by
  induction l with
  | nil => simp
  | cons a t ih =>
    simp only [List.map_cons, List.nodup_cons] at h
    rw [List.countP_cons]
    by_cases ha : a.1 = d
    · have ht : t.countP (fun p => decide (p.1 = d)) = 0 := by
        rw [List.countP_eq_zero]
        intro q hq
        simp only [decide_eq_true_eq]
        intro hqd
        have hmm : q.1 ∈ t.map Prod.fst := List.mem_map_of_mem Prod.fst hq
        rw [hqd, ← ha] at hmm
        exact h.1 hmm
      simp [ha, ht]
    · have := ih h.2
      simp [ha]
      omega

/-- C4: in one `get_ready_urls` call on a well-formed scheduler (unique
domain keys, queues bucketed by their own domain), a URL of domain `d`
is emitted exactly when `d`'s queue is non-empty, `d` is not in flight
and the cooldown has elapsed; in that case the emitted URL is the head
of `d`'s FIFO queue, the queue is popped, and `d` is inserted into the
in-flight set; and at most one URL per domain is returned per call. -/
theorem c4_claim (s : DomainScheduler) (now : ℤ) (d : String) (st : DomainState)
    (hnd : (s.domains.map Prod.fst).Nodup)
    (hwf : ∀ p ∈ s.domains, ∀ v ∈ p.2.pending_urls, extract_domain v = p.1)
    (hmem : (d, st) ∈ s.domains) :
    ((∃ v ∈ (get_ready_urls s now).1, extract_domain v = d) ↔
      (st.pending_urls ≠ [] ∧ d ∉ s.in_flight ∧
       s.cfg.domain_delay_sec ≤ now - st.last_crawl_ts)) ∧
    ((st.pending_urls ≠ [] ∧ d ∉ s.in_flight ∧
      s.cfg.domain_delay_sec ≤ now - st.last_crawl_ts) →
      st.pending_urls.headI ∈ (get_ready_urls s now).1 ∧
      (d, { st with pending_urls := st.pending_urls.tail }) ∈ (get_ready_urls s now).2.domains ∧
      d ∈ (get_ready_urls s now).2.in_flight) ∧
    ((get_ready_urls s now).1.countP (fun v => decide (extract_domain v = d)) ≤ 1) := by
  obtain ⟨hready, hdoms, hfl⟩ := get_ready_urls_eq s now hnd
  have hEiff := eligibleB_iff s.cfg s.in_flight now (d, st)
  refine ⟨⟨?_, ?_⟩, ?_, ?_⟩
  · -- a URL of domain d emitted → d was dispatchable
    rintro ⟨v, hv, hvd⟩
    rw [hready] at hv
    obtain ⟨p, hpmem, hpf⟩ := List.mem_filterMap.mp hv
    by_cases hE : eligibleB s.cfg s.in_flight now p = true
    · rw [if_pos hE] at hpf
      obtain rfl : p.2.pending_urls.headI = v := by injection hpf
      have hpcond := (eligibleB_iff s.cfg s.in_flight now p).mp hE
      obtain ⟨w, t', hwt⟩ := List.exists_cons_of_ne_nil hpcond.1
      have hhead : p.2.pending_urls.headI ∈ p.2.pending_urls := by
        rw [hwt]; exact List.mem_cons_self _ _
      have hpd : p.1 = d := by rw [← hwf p hpmem _ hhead, hvd]
      have hpe : p = (d, st) := key_inj hnd hpmem hmem hpd
      rw [hpe] at hE
      exact (eligibleB_iff s.cfg s.in_flight now (d, st)).mp hE
    · rw [if_neg hE] at hpf
      cases hpf
  · -- d dispatchable → its head URL is emitted
    intro hcond
    have hE : eligibleB s.cfg s.in_flight now (d, st) = true := hEiff.mpr hcond
    refine ⟨st.pending_urls.headI, ?_, ?_⟩
    · rw [hready]
      exact List.mem_filterMap.mpr ⟨(d, st), hmem, by rw [if_pos hE]⟩
    · obtain ⟨w, t', hwt⟩ := List.exists_cons_of_ne_nil hcond.1
      have hhead : st.pending_urls.headI ∈ st.pending_urls := by
        rw [hwt]; exact List.mem_cons_self _ _
      exact hwf (d, st) hmem _ hhead
  · -- dispatch effects: head emitted, queue popped, domain now in flight
    intro hcond
    have hE : eligibleB s.cfg s.in_flight now (d, st) = true := hEiff.mpr hcond
    refine ⟨?_, ?_, ?_⟩
    · rw [hready]
      exact List.mem_filterMap.mpr ⟨(d, st), hmem, by rw [if_pos hE]⟩
    · rw [hdoms]
      refine List.mem_map.mpr ⟨(d, st), hmem, ?_⟩
      rw [if_pos hE]
      rfl
    · rw [hfl]
      refine List.mem_append.mpr (Or.inr ?_)
      exact List.mem_filterMap.mpr ⟨(d, st), hmem, by rw [if_pos hE]⟩
  · -- at most one URL of domain d per call
    rw [hready, countP_filterMap]
    refine le_trans (List.countP_mono_left ?_) (countP_key_le_one hnd d)
    intro p hpmem hmatch
    by_cases hE : eligibleB s.cfg s.in_flight now p = true
    · rw [if_pos hE] at hmatch
      simp only [decide_eq_true_eq] at hmatch ⊢
      have hpcond := (eligibleB_iff s.cfg s.in_flight now p).mp hE
      obtain ⟨w, t', hwt⟩ := List.exists_cons_of_ne_nil hpcond.1
      have hhead : p.2.pending_urls.headI ∈ p.2.pending_urls := by
        rw [hwt]; exact List.mem_cons_self _ _
      rw [← hwf p hpmem _ hhead, hmatch]
    · rw [if_neg hE] at hmatch
      cases hmatch

/-- Witness for C4: the at-most-one-per-domain bound on a concrete
scheduler, with all well-formedness hypotheses discharged by
evaluation. -/
theorem c4_witness :
    (get_ready_urls s4 100).1.countP
      (fun v => decide (extract_domain v = "a.com")) ≤ 1 :=
  (c4_claim s4 100 "a.com"
    { domain := "a.com", last_crawl_ts := 0,
      pending_urls := ["https://a.com/1", "https://a.com/2"] }
    (by decide) (by decide) (by decide)).2.2

end Crawler
